import Mathlib

/-
Verification of `project3/project3.py`: the k-means routine and the EM
mixture-model driver.

Modelling conventions, chosen to mirror the numpy/Python source:

* Machine floats are modelled by `NF`: an exact rational payload plus the
  IEEE special values NaN, +inf and -inf.  They matter here because
  `k_means` seeds its best-distance search with `float('inf')` and its
  update step performs `cluster_sums[i] / cluster_sizes[i]`, which on an
  empty cluster is numpy's `0/0 = nan` (a RuntimeWarning, not an
  exception).  IEEE comparisons involving NaN are false.
* `np.linalg.norm(v, ord=2)` is `sqrt (sum of squares)`.  Every use of a
  norm in the source is a comparison (`euc_dist < best_euc_dist`,
  `norm(mu[i] - prev_mu[i]) > eps`); since `sqrt` is strictly monotone on
  `[0, inf)` (and maps NaN to NaN, inf to inf), comparing squared norms
  against squared bounds is equivalent.  The embedding therefore carries
  squared norms, and the tolerance parameter `epsSq` stands for `eps ** 2`
  with `eps >= 0` (the spec requires `eps > 0`).
* Data points are exact rational vectors (`List Rat`): the dataset itself
  is plain numeric input, NaN can only arise inside the algorithm.
* Cluster sizes are natural numbers: the source keeps them in a float
  array but only ever adds 1 to them, which is exact.
* `prev_mu = mu` in the source makes `prev_mu` an alias of the very array
  that the update step then mutates in place.  The state records this with
  `prevMu : Option _`: `some p` is a separate array `p` (the initial
  `np.zeros((k,d))`), `none` means "aliased to `mu`", in which case the
  convergence check reads the freshly updated centroids.
-/

namespace Project3

/-- IEEE-754-style scalar: exact rational value, NaN, +infinity or
-infinity.  Mirrors the float values that can occur in `k_means`. -/
inductive NF where
  | val (q : ℚ)
  | nan
  | pinf
  | ninf
deriving DecidableEq

/-- IEEE subtraction on `NF` (only the cases IEEE defines as NaN are NaN). -/
def NF.sub : NF → NF → NF
  | .val a, .val b => .val (a - b)
  | .nan, _ => .nan
  | _, .nan => .nan
  | .pinf, .pinf => .nan
  | .pinf, _ => .pinf
  | .ninf, .ninf => .nan
  | .ninf, _ => .ninf
  | .val _, .pinf => .ninf
  | .val _, .ninf => .pinf

/-- IEEE squaring on `NF`. -/
def NF.sq : NF → NF
  | .val a => .val (a * a)
  | .nan => .nan
  | .pinf => .pinf
  | .ninf => .pinf

/-- IEEE addition on `NF`. -/
def NF.add : NF → NF → NF
  | .val a, .val b => .val (a + b)
  | .nan, _ => .nan
  | _, .nan => .nan
  | .pinf, .ninf => .nan
  | .ninf, .pinf => .nan
  | .pinf, _ => .pinf
  | _, .pinf => .pinf
  | .ninf, _ => .ninf
  | _, .ninf => .ninf

/-- numpy float division of a rational by a (float-valued) count `n`:
`0/0 = nan`, `x/0 = +-inf` for `x /= 0`, exact otherwise.  This is the
division `mu[i] = cluster_sums[i] / cluster_sizes[i]` of the update step. -/
def NF.divQNat (x : ℚ) (n : ℕ) : NF :=
  if n = 0 then (if x = 0 then .nan else if 0 < x then .pinf else .ninf)
  else .val (x / n)

/-- IEEE strict `<` on `NF`: any comparison involving NaN is false.  Used
for `euc_dist < best_euc_dist` (on squared distances). -/
def NF.lt : NF → NF → Bool
  | .val a, .val b => decide (a < b)
  | .nan, _ => false
  | _, .nan => false
  | .pinf, _ => false
  | .ninf, .ninf => false
  | .ninf, _ => true
  | .val _, .pinf => true
  | .val _, .ninf => false

/-- IEEE `x > e` against a rational bound: false when `x` is NaN.  Used for
`np.linalg.norm(mu[i] - prev_mu[i], ord=2) > eps` (on squared values). -/
def NF.gtQ : NF → ℚ → Bool
  | .val a, e => decide (e < a)
  | .nan, _ => false
  | .pinf, _ => true
  | .ninf, _ => false

/-- A data point: one row of the NxD dataset. -/
abbrev Pt := List ℚ

/-- Inject a rational row into `NF` scalars. -/
def toNFrow (r : List ℚ) : List NF := r.map NF.val

/-- Inject a rational matrix into `NF` scalars. -/
def toNFmat (m : List (List ℚ)) : List (List NF) := m.map toNFrow

/-- Left-to-right float summation starting from `0.0`. -/
def sumNF (l : List NF) : NF := l.foldl NF.add (NF.val 0)

/-- Squared L2 norm of `data[pt] - mu[u]`: the quantity whose square root
the source computes as `euc_dist = np.linalg.norm(data[pt] - mu[u], ord=2)`. -/
def sqDistNF (p : Pt) (m : List NF) : NF :=
  sumNF ((List.zip p m).map (fun xy => NF.sq (NF.sub (NF.val xy.1) xy.2)))

/-- Squared L2 norm of `mu[i] - prev_mu[i]` in the convergence check. -/
def rowSqDiff (a b : List NF) : NF :=
  sumNF ((List.zip a b).map (fun xy => NF.sq (NF.sub xy.1 xy.2)))

/-- The inner loop `for u in range(k)` of the assignment step: scan the
centroid rows in order, keeping `(cluster_id, best_euc_dist)`, updating on
strict `<` only.  `u` is the index of the first row of the remaining list. -/
def bestLoop (p : Pt) : List (List NF) → ℕ → ℕ × NF → ℕ × NF
  | [], _, acc => acc
  | m :: rest, u, acc =>
      bestLoop p rest (u + 1)
        (if NF.lt (sqDistNF p m) acc.2 then (u, sqDistNF p m) else acc)

/-- Cluster chosen for point `p`: `cluster_id` starts at 0 and
`best_euc_dist` at `float('inf')`. -/
def assignPoint (p : Pt) (mu : List (List NF)) : ℕ :=
  (bestLoop p mu 0 (0, NF.pinf)).1

/-- Elementwise vector addition, `cluster_sums[cluster_id] += data[pt]`. -/
def vecAdd (a b : List ℚ) : List ℚ := List.zipWith (fun x y => x + y) a b

/-- The loop `for pt in range(n)` of the assignment step: each point is
assigned, then its cluster's size is bumped and its coordinates are added
to its cluster's sum.  `sizes` and `sums` come in from the surrounding
state: the source never resets them between iterations of the outer loop.
`acc` collects the assignment vector, which the source overwrites fully
each iteration. -/
def assignFold (mu : List (List NF)) :
    List Pt → (ℕ → ℕ) → (ℕ → Pt) → List ℕ → ((ℕ → ℕ) × (ℕ → Pt) × List ℕ)
  | [], sizes, sums, acc => (sizes, sums, acc)
  | p :: rest, sizes, sums, acc =>
      assignFold mu rest
        (fun j => if j = assignPoint p mu then sizes j + 1 else sizes j)
        (fun j => if j = assignPoint p mu then vecAdd (sums j) p else sums j)
        (acc ++ [assignPoint p mu])

/-- The update step `for i in range(k): mu[i] = cluster_sums[i] /
cluster_sizes[i]`, with numpy division semantics (an empty cluster gives a
NaN row via `0/0`). -/
def updateStep (k : ℕ) (sums : ℕ → Pt) (sizes : ℕ → ℕ) : List (List NF) :=
  (List.range k).map (fun i => (sums i).map (fun x => NF.divQNat x (sizes i)))

/-- The convergence check `for i in range(k)`: the flag is overwritten for
every cluster (`converged = False` if that cluster moved more than `eps`,
else `converged = True`), starting from its previous value `init`. -/
def convCheck (epsSq : ℚ) (mu prev : List (List NF)) (k : ℕ) (init : Bool) : Bool :=
  (List.range k).foldl
    (fun _ i =>
      if NF.gtQ (rowSqDiff (mu.getD i []) (prev.getD i [])) epsSq then false else true)
    init

/-- State of the `while (not converged)` loop of `k_means`. -/
structure KState where
  sizes : ℕ → ℕ
  sums : ℕ → Pt
  mu : List (List NF)
  assign : List ℕ
  prevMu : Option (List (List NF))
  converged : Bool

/-- One iteration of the `while` loop: assignment step, update step,
convergence check, then `prev_mu = mu` (recorded as aliasing: `prevMu :=
none`).  When `prevMu` is already `none`, the check reads the freshly
mutated `mu`, because `prev_mu` points at the very array the update step
just overwrote in place. -/
def iterate (data : List Pt) (k : ℕ) (epsSq : ℚ) (s : KState) : KState :=
  let a := assignFold s.mu data s.sizes s.sums []
  let mu' := updateStep k a.2.1 a.1
  { sizes := a.1
    sums := a.2.1
    mu := mu'
    assign := a.2.2
    prevMu := none
    converged := convCheck epsSq mu' (s.prevMu.getD mu') k s.converged }

/-- The `while (not converged)` loop, with fuel (the source has no
iteration cap; `none` means the loop did not exit within `fuel`
iterations).  Returns the centroids, the assignment vector, and the number
of completed iterations (the source's `iters` counter). -/
def kmLoop (data : List Pt) (k : ℕ) (epsSq : ℚ) :
    ℕ → KState → ℕ → Option (List (List NF) × List ℕ × ℕ)
  | 0, s, iters => if s.converged then some (s.mu, s.assign, iters) else none
  | fuel + 1, s, iters =>
      if s.converged then some (s.mu, s.assign, iters)
      else kmLoop data k epsSq fuel (iterate data k epsSq s) (iters + 1)

/-- Initial loop state: `assignments = np.zeros(n)`, `cluster_sizes =
np.zeros(k)`, `cluster_sums = np.zeros((k,d))`, `prev_mu = np.zeros((k,d))`
(a separate array), `converged = False`. -/
def initState (n d k : ℕ) (mu0 : List (List NF)) : KState :=
  { sizes := fun _ => 0
    sums := fun _ => List.replicate d 0
    mu := mu0
    assign := List.replicate n 0
    prevMu := some (List.replicate k (List.replicate d (NF.val 0)))
    converged := false }

/-- `k_means(data, k, eps, mu)` with explicit initial centroids `mu0` (when
the caller passes `mu=None` the source draws `k` distinct data rows at
random; theorems quantify over `mu0` instead). -/
def kMeans (data : List Pt) (k : ℕ) (epsSq : ℚ) (mu0 : List (List NF))
    (fuel : ℕ) : Option (List (List NF) × List ℕ × ℕ) :=
  kmLoop data k epsSq fuel (initState data.length (data.headD []).length k mu0) 0

/-- A value stored in a model's parameter dictionary (`pi`, `mu`, `sigsq`,
`alpha`, `p_z`) or exposed as a fitted attribute (`n_train`, `max_ll`). -/
inductive PVal where
  | vec (v : List ℚ)
  | mat (m : List (List ℚ))
  | mats (l : List (List (List ℚ)))
  | nat (n : ℕ)
  | rat (q : ℚ)
deriving DecidableEq

/-- A Python dict keyed by strings, as an insertion-ordered association
list. -/
abbrev Params := List (String × PVal)

/-- First-match lookup in a parameter dictionary. -/
def lookupP : Params → String → Option PVal
  | [], _ => none
  | (b, w) :: rest, a => if b = a then some w else lookupP rest a

/-- Python's `d[a] = v`: replace the value in place if the key exists,
append the pair otherwise. -/
def setKey : Params → String → PVal → Params
  | [], a, v => [(a, v)]
  | (b, w) :: rest, a, v =>
      if b = a then (b, v) :: rest else (b, w) :: setKey rest a v

/-- Python's `d.update(new)`: set each key of `new` in order. -/
def dictUpdate (ps : Params) : Params → Params
  | [] => ps
  | (a, v) :: rest => dictUpdate (setKey ps a v) rest

/-- The variant-supplied capabilities the abstract `MixtureModel` defers
to: `e_step(data) -> (log-likelihood, p_z)` and `m_step(data, p_z) -> new
parameter dict`.  Both methods read `self.params`, so they receive the
current dictionary. -/
structure EMStep (δ : Type) where
  eStep : Params → List δ → ℚ × List (List ℚ)
  mStep : Params → List δ → List (List ℚ) → Params

/-- The parameter mutation one `fit` iteration performs:
`new_params = self.m_step(data, p_z); self.params.update(new_params)`. -/
def iterParams {δ : Type} (st : EMStep δ) (data : List δ) (ps : Params) : Params :=
  dictUpdate ps (st.mStep ps data (st.eStep ps data).2)

/-- Result of the `while True` loop of `MixtureModel.fit`: ran out of
iterations (`return False`), raised `ZeroDivisionError` on `ll == 0`
(Python float division by zero), or hit the `break` (converged). -/
inductive FitOutcome where
  | failed (ps : Params)
  | diverr (ps : Params)
  | success (ps : Params) (ll : ℚ) (pz : List (List ℚ))
deriving DecidableEq

/-- `np.finfo(float).min`, the initial `last_ll`. -/
def floatMin : ℚ := -(17976931348623157 * 10 ^ 292)

/-- The `while True` loop of `MixtureModel.fit`.  Each pass increments `i`
and returns `False` once `i > max_iters` (so the fuel is the number of
body executions left); otherwise it runs the E-step, merges the M-step's
dictionary into `params`, and evaluates
`abs((ll - last_ll) / ll) < eps`, which divides by zero when `ll == 0`. -/
def fitLoop {δ : Type} (st : EMStep δ) (data : List δ) (eps : ℚ) :
    ℕ → Params → ℚ → FitOutcome
  | 0, ps, _ => .failed ps
  | fuel + 1, ps, lastLl =>
      let ll := (st.eStep ps data).1
      let pz := (st.eStep ps data).2
      let ps' := iterParams st data ps
      if ll = 0 then .diverr ps'
      else if |(ll - lastLl) / ll| < eps then .success ps' ll pz
      else fitLoop st data eps fuel ps' ll

/-- A `MixtureModel` instance: cluster count `k`, the parameter dict, and
the `n_train` / `max_ll` instance attributes (unset before a successful
fit). -/
structure MMState where
  k : ℕ
  params : Params
  n_train : Option ℕ
  max_ll : Option ℚ

/-- Attribute lookup on the instance itself (Python finds `n_train` and
`max_ll` in `self.__dict__` once `setattr` has run). -/
def instanceAttr (m : MMState) : String → Option PVal
  | "n_train" => m.n_train.map PVal.nat
  | "max_ll" => m.max_ll.map PVal.rat
  | _ => none

/-- Attribute access: instance attributes first, then `__getattr__`, which
returns `self.params[attr]` or raises `AttributeError` (modelled as
`Except.error ()`). -/
def mmGetattr (m : MMState) (a : String) : Except Unit PVal :=
  match instanceAttr m a with
  | some v => .ok v
  | none =>
      match lookupP m.params a with
      | some v => .ok v
      | none => .error ()

/-- `MixtureModel.fit`: run the loop from `last_ll = np.finfo(float).min`;
on `return False` only `params` has been mutated; on success set
`n_train`, `max_ll` and store `p_z` in the dictionary; a
`ZeroDivisionError` propagates as `Except.error ()`. -/
def fit {δ : Type} (st : EMStep δ) (data : List δ) (eps : ℚ) (maxIters : ℕ)
    (m : MMState) : Except Unit (Bool × MMState) :=
  match fitLoop st data eps maxIters m.params floatMin with
  | .failed ps => .ok (false, { m with params := ps })
  | .diverr _ => .error ()
  | .success ps ll pz =>
      .ok (true,
        { m with
            params := setKey ps "p_z" (PVal.mat pz)
            n_train := some data.length
            max_ll := some ll })

/-- Column `j` of the dataset. -/
def featureColumn (data : List Pt) (j : ℕ) : List ℚ := data.map (fun r => r.getD j 0)

/-- Mean of column `j`. -/
def featureMean (data : List Pt) (j : ℕ) : ℚ :=
  (featureColumn data j).sum / data.length

/-- `data.var(0)` for a pandas DataFrame (the type `fit`'s docstring gives
for `data`): per-column sample variance, denominator `N - 1` (pandas'
default `ddof=1`). -/
def featureVar (data : List Pt) (j : ℕ) : ℚ :=
  ((featureColumn data j).map (fun x => (x - featureMean data j) ^ 2)).sum
    / ((data.length : ℚ) - 1)

/-- `np.mean(data.var(0))`: the per-feature variances averaged over the
`D` features. -/
def avgFeatureVar (data : List Pt) : ℚ :=
  (((List.range (data.headD []).length).map (featureVar data)).sum)
    / ((data.headD []).length : ℚ)

/-- The statement `GMM.fit` runs before delegating to the base class:
`self.params['sigsq'] = np.asarray([np.mean(data.var(0))] * self.k)`. -/
def gmmPreFit (data : List Pt) (m : MMState) : MMState :=
  { m with
      params := setKey m.params "sigsq"
        (PVal.vec (List.replicate m.k (avgFeatureVar data))) }

/-- `GMM.fit(data, ...)`: initialize `sigsq`, then run the generic EM fit. -/
def gmmFit (st : EMStep Pt) (data : List Pt) (eps : ℚ) (maxIters : ℕ)
    (m : MMState) : Except Unit (Bool × MMState) :=
  fit st data eps maxIters (gmmPreFit data m)

/-- Rational squared distance between a point and a rational centroid row;
`sqDistNF` computes exactly this when the centroid row is NaN-free. -/
def sqDistQ (p r : List ℚ) : ℚ :=
  ((p.zip r).map (fun xy => (xy.1 - xy.2) * (xy.1 - xy.2))).sum

/-- Rational squared L2 norm of a difference of rational rows. -/
def sqDiffQ (a b : List ℚ) : ℚ :=
  ((a.zip b).map (fun xy => (xy.1 - xy.2) * (xy.1 - xy.2))).sum

/-- Rational squared L2 norm. -/
def sqNormQ (v : List ℚ) : ℚ := (v.map (fun x => x * x)).sum

/-- Sum of column `j` over all data rows. -/
def colSum (data : List Pt) (j : ℕ) : ℚ := (data.map (fun r => r.getD j 0)).sum

/-- The arithmetic mean of the `N` data points, coordinate by coordinate. -/
def meanVec (d : ℕ) (data : List Pt) : Pt :=
  (List.range d).map (fun j => colSum data j / data.length)

/-- NaN absorbs on the left of float addition. -/
lemma NF.add_nan (x : NF) : NF.add NF.nan x = NF.nan := by cases x <;> rfl

/-- A float sum that has gone NaN stays NaN. -/
lemma foldl_add_nan : ∀ l : List NF, l.foldl NF.add NF.nan = NF.nan := by
  intro l
  induction l with
  | nil => rfl
  | cons x t ih => simp only [List.foldl_cons, NF.add_nan, ih]

/-- Summing terms that are each `0.0` or NaN yields the start value or NaN. -/
lemma foldl_add_val_zero_or_nan :
    ∀ l : List NF, (∀ x ∈ l, x = NF.val 0 ∨ x = NF.nan) → ∀ a : ℚ,
      l.foldl NF.add (NF.val a) = NF.val a ∨ l.foldl NF.add (NF.val a) = NF.nan := by
  intro l
  induction l with
  | nil => exact fun _ a => Or.inl rfl
  | cons x t ih =>
    intro h a
    rcases h x (List.mem_cons_self _ _) with hx | hx <;> subst hx
    · have hz : NF.add (NF.val a) (NF.val 0) = NF.val a := by simp [NF.add]
      simp only [List.foldl_cons, hz]
      exact ih (fun y hy => h y (List.mem_cons_of_mem _ hy)) a
    · right
      have hz : NF.add (NF.val a) NF.nan = NF.nan := rfl
      rw [List.foldl_cons, hz, foldl_add_nan]

/-- Each term of the squared norm of `v - v` is `0.0` (real entry) or NaN
(NaN or infinite entry). -/
lemma sq_sub_self_zero_or_nan (x : NF) :
    NF.sq (NF.sub x x) = NF.val 0 ∨ NF.sq (NF.sub x x) = NF.nan := by
  cases x with
  | val a => left; simp [NF.sub, NF.sq]
  | nan => right; rfl
  | pinf => right; rfl
  | ninf => right; rfl

/-- The squared movement of a row against itself never exceeds a
nonnegative tolerance: it is `0.0` or NaN, and NaN comparisons are false.
This is what the convergence check computes once `prev_mu` aliases `mu`. -/
lemma gtQ_rowSqDiff_self (m : List NF) (e : ℚ) (he : 0 ≤ e) :
    NF.gtQ (rowSqDiff m m) e = false := by
  have hmem : ∀ x ∈ (List.zip m m).map (fun xy => NF.sq (NF.sub xy.1 xy.2)),
      x = NF.val 0 ∨ x = NF.nan := by
    induction m with
    | nil => simp
    | cons a t ih =>
      intro x hx
      rcases List.mem_cons.mp hx with hx | hx
      · subst hx; exact sq_sub_self_zero_or_nan a
      · exact ih x hx
  rcases foldl_add_val_zero_or_nan _ hmem 0 with h | h <;>
    simp only [rowSqDiff, sumNF, h, NF.gtQ]
  · exact decide_eq_false (not_lt.mpr he)

/-- The convergence flag the check loop leaves behind is the verdict of
the LAST cluster alone: the per-cluster `converged = ...` assignments
overwrite one another. -/
lemma convCheck_eq_last (epsSq : ℚ) (mu prev : List (List NF)) (k : ℕ)
    (init : Bool) (hk : 1 ≤ k) :
    convCheck epsSq mu prev k init =
      !(NF.gtQ (rowSqDiff (mu.getD (k - 1) []) (prev.getD (k - 1) [])) epsSq) := by
  obtain ⟨j, rfl⟩ : ∃ j, k = j + 1 := ⟨k - 1, (Nat.succ_pred_eq_of_pos hk).symm⟩
  simp only [convCheck, List.range_succ, List.foldl_append, List.foldl_cons,
    List.foldl_nil, Nat.add_sub_cancel]
  cases NF.gtQ (rowSqDiff (mu.getD j []) (prev.getD j [])) epsSq <;> simp

/-- Every iteration ends with `prev_mu = mu`, i.e. with the two names
aliased. -/
lemma iterate_prevMu (data : List Pt) (k : ℕ) (epsSq : ℚ) (s : KState) :
    (iterate data k epsSq s).prevMu = none := rfl

/-- Once `prev_mu` aliases `mu`, the next iteration's convergence check
compares the freshly updated centroids with themselves, so it always
reports convergence (for a nonnegative tolerance). -/
lemma iterate_conv_of_aliased (data : List Pt) (k : ℕ) (epsSq : ℚ) (s : KState)
    (hal : s.prevMu = none) (hk : 1 ≤ k) (heps : 0 ≤ epsSq) :
    (iterate data k epsSq s).converged = true := by
  have hrfl : (iterate data k epsSq s).converged =
      convCheck epsSq
        (updateStep k (assignFold s.mu data s.sizes s.sums []).2.1
          (assignFold s.mu data s.sizes s.sums []).1)
        (s.prevMu.getD
          (updateStep k (assignFold s.mu data s.sizes s.sums []).2.1
            (assignFold s.mu data s.sizes s.sums []).1))
        k s.converged := rfl
  rw [hrfl, hal, Option.getD_none, convCheck_eq_last _ _ _ _ _ hk,
    gtQ_rowSqDiff_self _ _ heps]
  rfl

/-- Unfolding the loop one step when the flag is still down. -/
lemma kmLoop_succ_of_not (data : List Pt) (k : ℕ) (epsSq : ℚ) (fuel : ℕ)
    (s : KState) (iters : ℕ) (h : s.converged = false) :
    kmLoop data k epsSq (fuel + 1) s iters =
      kmLoop data k epsSq fuel (iterate data k epsSq s) (iters + 1) := by
  simp [kmLoop, h]

/-- The loop exits immediately once the flag is up, whatever the fuel. -/
lemma kmLoop_of_conv (data : List Pt) (k : ℕ) (epsSq : ℚ) (fuel : ℕ)
    (s : KState) (iters : ℕ) (h : s.converged = true) :
    kmLoop data k epsSq fuel s iters = some (s.mu, s.assign, iters) := by
  cases fuel <;> simp [kmLoop, h]

/-- C1: the claim says the iteration is converged only if EVERY cluster
moved by at most `eps`.  Counterexample: data `{0, 10}` in 1D, `k = 2`,
initial centroids `(10, 0)`, `eps = 1e-4` (so `epsSq = 1e-8`).  The first
iteration moves cluster 0 from the initial `prev_mu` row `[0]` to `[10]`
(squared movement `100 > epsSq`), yet the run declares convergence on that
very iteration (it returns after 1 iteration), because the check loop
overwrites the flag and cluster 1 (movement 0) is checked last. -/
theorem C1_counterexample :
    kMeans [[0], [10]] 2 (1 / 100000000) [[NF.val 10], [NF.val 0]] 5 =
      some ([[NF.val 10], [NF.val 0]], [1, 0], 1) ∧
    NF.gtQ (rowSqDiff [NF.val 10] [NF.val 0]) (1 / 100000000) = true := by
  constructor
  · norm_num [kMeans, kmLoop, initState, iterate, assignFold, assignPoint, bestLoop,
      sqDistNF, sumNF, rowSqDiff, updateStep, convCheck, vecAdd, NF.lt, NF.gtQ,
      NF.add, NF.sub, NF.sq, NF.divQNat, List.range_succ]
  · norm_num [rowSqDiff, sumNF, NF.gtQ, NF.add, NF.sub, NF.sq]

/-- C1 (amended): the verdict of an iteration's convergence check is the
verdict of cluster `k - 1` alone — converged iff the last cluster moved by
at most `eps`; the movements of clusters `0 .. k-2` do not affect it. -/
theorem C1_amended (epsSq : ℚ) (mu prev : List (List NF)) (k : ℕ)
    (init : Bool) (hk : 1 ≤ k) :
    convCheck epsSq mu prev k init =
      !(NF.gtQ (rowSqDiff (mu.getD (k - 1) []) (prev.getD (k - 1) [])) epsSq) :=
  convCheck_eq_last epsSq mu prev k init hk

/-- C1 witness: the amended theorem applied at a concrete input. -/
theorem C1_witness :
    (1 ≤ 1) ∧
    convCheck 1 [[NF.val 0]] [[NF.val 0]] 1 false =
      !(NF.gtQ (rowSqDiff ([[NF.val 0]].getD (1 - 1) [])
          ([[NF.val 0]].getD (1 - 1) [])) 1) :=
  ⟨le_refl 1, C1_amended 1 [[NF.val 0]] [[NF.val 0]] 1 false (le_refl 1)⟩

/-- C4: the claim says an empty cluster surfaces as a defined failure
(reassignment or abort) rather than silently propagating NaN.
Counterexample: data `{0, 1}` in 1D, `k = 2`, initial centroids `(0, 5)`:
both points go to cluster 0, cluster 1 gets zero points, the update step
computes `0/0 = nan`, the convergence check treats the NaN comparison as
"not moved", and the run RETURNS normally after 1 iteration with NaN in
the centroid matrix — no abort, no reassignment. -/
theorem C4_counterexample :
    kMeans [[0], [1]] 2 (1 / 100000000) [[NF.val 0], [NF.val 5]] 5 =
      some ([[NF.val (1 / 2)], [NF.nan]], [0, 0], 1) := by
  norm_num [kMeans, kmLoop, initState, iterate, assignFold, assignPoint, bestLoop,
    sqDistNF, sumNF, rowSqDiff, updateStep, convCheck, vecAdd, NF.lt, NF.gtQ,
    NF.add, NF.sub, NF.sq, NF.divQNat, List.range_succ]

/-- C4 (amended): when a cluster's accumulated point count is zero at the
update step, its new centroid row is all NaN (numpy's `0/0`), produced and
propagated without any guard. -/
theorem C4_amended (k dd : ℕ) (sizes : ℕ → ℕ) (sums : ℕ → Pt) (i : ℕ)
    (hik : i < k) (hs : sizes i = 0) (hv : sums i = List.replicate dd 0) :
    (updateStep k sums sizes).getD i [] = List.replicate dd NF.nan := by
  have h1 : (updateStep k sums sizes).getD i [] =
      (sums i).map (fun x => NF.divQNat x (sizes i)) := by
    simp [updateStep, List.getD_eq_getElem?_getD, List.getElem?_map,
      List.getElem?_range, hik]
  rw [h1, hs, hv]
  simp [NF.divQNat, List.map_replicate]

/-- C4 witness: the amended theorem applied at a concrete input. -/
theorem C4_witness :
    (1 < 2) ∧
    (updateStep 2 (fun j => if j = 0 then [1] else [0])
        (fun j => if j = 0 then 2 else 0)).getD 1 [] = List.replicate 1 NF.nan :=
  ⟨by decide, C4_amended 2 1 _ _ 1 (by decide) rfl rfl⟩

/-- C5: the claim says the `ll == 0` case of the convergence check is
explicitly guarded.  Counterexample: a variant whose E-step reports
log-likelihood `0` makes `fit` hit `abs((ll - last_ll) / ll)` with
`ll = 0` on the first iteration and raise `ZeroDivisionError` (modelled as
`Except.error ()`): there is no guard or fallback. -/
theorem C5_counterexample :
    fit (⟨fun _ _ => (0, [[1]]), fun _ _ _ => []⟩ : EMStep Pt) [[0]]
      (1 / 10000) 5 ⟨1, [("pi", PVal.vec [1])], none, none⟩ = .error () := rfl

/-- C5 (amended): whenever the E-step's log-likelihood is exactly zero
(and an iteration is still allowed), the loop raises the division error
right after merging the M-step's parameters; nothing guards the case. -/
theorem C5_amended {δ : Type} (st : EMStep δ) (data : List δ) (eps lastLl : ℚ)
    (fuel : ℕ) (ps : Params) (h : (st.eStep ps data).1 = 0) :
    fitLoop st data eps (fuel + 1) ps lastLl = .diverr (iterParams st data ps) := by
  simp [fitLoop, h]

/-- C5 witness: the amended theorem applied at a concrete input. -/
theorem C5_witness :
    ((⟨fun _ _ => (0, [[1]]), fun _ _ _ => []⟩ : EMStep Pt).eStep
        [("pi", PVal.vec [1])] [[0]]).1 = 0 ∧
    fitLoop (⟨fun _ _ => (0, [[1]]), fun _ _ _ => []⟩ : EMStep Pt) [[0]]
        (1 / 10000) (3 + 1) [("pi", PVal.vec [1])] floatMin =
      .diverr (iterParams (⟨fun _ _ => (0, [[1]]), fun _ _ _ => []⟩ : EMStep Pt)
        [[0]] [("pi", PVal.vec [1])]) :=
  ⟨rfl, C5_amended _ _ _ _ _ _ rfl⟩

/-- C6: if the loop runs out of iterations without the relative-change
check passing (`fitLoop` ends in `failed`, which covers `max_iters = 0`),
`fit` returns `False`, leaves `n_train` and `max_ll` unset, and accessing
either afterwards raises `AttributeError` (provided, as for every actual
variant, the parameter dictionary does not itself contain those keys). -/
theorem C6_fit_failure {δ : Type} (st : EMStep δ) (data : List δ) (eps : ℚ)
    (maxIters : ℕ) (m : MMState) (ps : Params)
    (hrun : fitLoop st data eps maxIters m.params floatMin = .failed ps)
    (hn : m.n_train = none) (hl : m.max_ll = none)
    (hn2 : lookupP ps "n_train" = none) (hl2 : lookupP ps "max_ll" = none) :
    fit st data eps maxIters m = .ok (false, { m with params := ps }) ∧
    mmGetattr { m with params := ps } "n_train" = .error () ∧
    mmGetattr { m with params := ps } "max_ll" = .error () := by
  refine ⟨?_, ?_, ?_⟩
  · simp [fit, hrun]
  · simp [mmGetattr, instanceAttr, hn, hn2]
  · simp [mmGetattr, instanceAttr, hl, hl2]

/-- C6 witness: the theorem applied at a concrete input (`max_iters = 0`,
a fresh one-cluster model). -/
theorem C6_witness :
    fit (⟨fun _ _ => (1, [[1]]), fun _ _ _ => [("mu", PVal.mat [[1]])]⟩ : EMStep Pt)
        [[0]] (1 / 10000) 0 ⟨1, [("pi", PVal.vec [1])], none, none⟩ =
      .ok (false, ⟨1, [("pi", PVal.vec [1])], none, none⟩) ∧
    mmGetattr ⟨1, [("pi", PVal.vec [1])], none, none⟩ "n_train" = .error () ∧
    mmGetattr ⟨1, [("pi", PVal.vec [1])], none, none⟩ "max_ll" = .error () :=
  C6_fit_failure _ _ _ _ ⟨1, [("pi", PVal.vec [1])], none, none⟩
    [("pi", PVal.vec [1])] rfl rfl rfl rfl rfl

/-- Looking up the key just set finds the new value. -/
lemma lookupP_setKey_self (ps : Params) (a : String) (v : PVal) :
    lookupP (setKey ps a v) a = some v := by
  induction ps with
  | nil => simp [setKey, lookupP]
  | cons hd t ih =>
    obtain ⟨c, w⟩ := hd
    by_cases h : c = a
    · simp [setKey, lookupP, h]
    · simp [setKey, lookupP, h, ih]

/-- Setting one key leaves every other key's value unchanged. -/
lemma lookupP_setKey_ne (ps : Params) (a : String) (v : PVal) (b : String)
    (h : b ≠ a) : lookupP (setKey ps a v) b = lookupP ps b := by
  induction ps with
  | nil => simp [setKey, lookupP, Ne.symm h]
  | cons hd t ih =>
    obtain ⟨c, w⟩ := hd
    by_cases hh : c = a
    · have hcb : ¬ c = b := by rw [hh]; exact Ne.symm h
      simp [setKey, lookupP, hh, hcb, Ne.symm h]
    · by_cases hb : c = b
      · simp [setKey, lookupP, hh, hb, h]
      · simp [setKey, lookupP, hh, hb, ih]

/-- `dict.update` does not touch keys absent from the update dict. -/
lemma dictUpdate_lookup_none (new : Params) :
    ∀ (ps : Params) (a : String), lookupP new a = none →
      lookupP (dictUpdate ps new) a = lookupP ps a := by
  induction new with
  | nil => intro ps a _; rfl
  | cons hd t ih =>
    intro ps a h
    have h1 : ¬ hd.1 = a := by
      intro e
      simp [lookupP, e] at h
    have h2 : lookupP t a = none := by
      simpa [lookupP, h1] using h
    calc lookupP (dictUpdate (setKey ps hd.1 hd.2) t) a
        = lookupP (setKey ps hd.1 hd.2) a := ih _ _ h2
      _ = lookupP ps a := lookupP_setKey_ne _ _ _ _ (fun e => h1 e.symm)

/-- If a key is not among an association list's keys, lookup misses. -/
lemma lookupP_eq_none_of_not_mem (l : Params) (a : String)
    (h : a ∉ l.map Prod.fst) : lookupP l a = none := by
  induction l with
  | nil => rfl
  | cons hd t ih =>
    have h1 : ¬ hd.1 = a := by
      intro e; exact h (by simp [e])
    have h2 : a ∉ t.map Prod.fst := fun hm => h (by simp [hm])
    simp [lookupP, h1, ih h2]

/-- `dict.update` installs every key of a duplicate-free update dict. -/
lemma dictUpdate_lookup_some (new : Params) :
    ∀ (ps : Params) (a : String) (v : PVal), (new.map Prod.fst).Nodup →
      lookupP new a = some v → lookupP (dictUpdate ps new) a = some v := by
  induction new with
  | nil => intro ps a v _ h; simp [lookupP] at h
  | cons hd t ih =>
    intro ps a v hnd h
    have hnd' : (t.map Prod.fst).Nodup := (List.nodup_cons.mp hnd).2
    by_cases he : hd.1 = a
    · have hv : hd.2 = v := by simpa [lookupP, he] using h
      have hmiss : lookupP t a = none := by
        refine lookupP_eq_none_of_not_mem _ _ ?_
        rw [← he]
        exact (List.nodup_cons.mp hnd).1
      calc lookupP (dictUpdate (setKey ps hd.1 hd.2) t) a
          = lookupP (setKey ps hd.1 hd.2) a := dictUpdate_lookup_none _ _ _ hmiss
        _ = some v := by rw [he, lookupP_setKey_self, hv]
    · have h2 : lookupP t a = some v := by simpa [lookupP, he] using h
      exact ih _ _ _ hnd' h2

/-- C8: each iteration's parameter mutation is
`params.update(m_step(...))`: a key absent from the M-step's returned
dictionary keeps its previous value, and (for the duplicate-free
dictionaries the variants return) every returned key takes its new value. -/
theorem C8_mstep_merge {δ : Type} (st : EMStep δ) (data : List δ) (ps : Params) :
    (∀ a, lookupP (st.mStep ps data (st.eStep ps data).2) a = none →
        lookupP (iterParams st data ps) a = lookupP ps a) ∧
    (∀ a v, ((st.mStep ps data (st.eStep ps data).2).map Prod.fst).Nodup →
        lookupP (st.mStep ps data (st.eStep ps data).2) a = some v →
        lookupP (iterParams st data ps) a = some v) :=
  ⟨fun _ h => dictUpdate_lookup_none _ _ _ h,
   fun _ _ hnd h => dictUpdate_lookup_some _ _ _ _ hnd h⟩

/-- C8 witness: the theorem applied at a concrete input — the key `pi` is
not in the M-step's dictionary and persists; the key `mu` is and is
updated. -/
theorem C8_witness :
    lookupP (iterParams
        (⟨fun _ _ => (1, [[1]]), fun _ _ _ => [("mu", PVal.mat [[1]])]⟩ : EMStep Pt)
        [[0]] [("pi", PVal.vec [1])]) "pi" = lookupP [("pi", PVal.vec [1])] "pi" ∧
    lookupP (iterParams
        (⟨fun _ _ => (1, [[1]]), fun _ _ _ => [("mu", PVal.mat [[1]])]⟩ : EMStep Pt)
        [[0]] [("pi", PVal.vec [1])]) "mu" = some (PVal.mat [[1]]) :=
  ⟨(C8_mstep_merge _ _ _).1 "pi" rfl,
   (C8_mstep_merge _ _ _).2 "mu" (PVal.mat [[1]]) (by simp) rfl⟩

/-- C9: `GMM.fit` first sets `sigsq` to the K-vector whose every entry is
the per-feature variances of the dataset averaged over the features
(`np.mean(data.var(0))`, sample variance since `data` is a DataFrame), and
only then runs the inherited EM loop on the so-updated model. -/
theorem C9_gmm_sigsq_init (st : EMStep Pt) (data : List Pt) (eps : ℚ)
    (maxIters : ℕ) (m : MMState) :
    gmmFit st data eps maxIters m = fit st data eps maxIters (gmmPreFit data m) ∧
    lookupP (gmmPreFit data m).params "sigsq" =
      some (PVal.vec (List.replicate m.k (avgFeatureVar data))) :=
  ⟨rfl, lookupP_setKey_self _ _ _⟩

/-- C10: because `prev_mu = mu` aliases the two arrays and the update step
mutates `mu` in place, every convergence check from the second iteration
on compares the centroids with themselves; hence for any data, any
initial centroids and any nonnegative tolerance the loop exits after at
most two iterations. -/
theorem C10_terminates_within_two (data : List Pt) (k : ℕ) (epsSq : ℚ)
    (mu0 : List (List NF)) (fuel : ℕ)
    (hk : 1 ≤ k) (heps : 0 ≤ epsSq) (hfuel : 2 ≤ fuel) :
    ∃ mu assign iters,
      kMeans data k epsSq mu0 fuel = some (mu, assign, iters) ∧ iters ≤ 2 := by
  obtain ⟨f, rfl⟩ : ∃ f, fuel = f + 2 := ⟨fuel - 2, by omega⟩
  have h0 : (initState data.length (data.headD []).length k mu0).converged = false := rfl
  have e0 : kMeans data k epsSq mu0 (f + 2) =
      kmLoop data k epsSq (f + 1)
        (iterate data k epsSq (initState data.length (data.headD []).length k mu0)) 1 :=
    kmLoop_succ_of_not data k epsSq (f + 1)
      (initState data.length (data.headD []).length k mu0) 0 h0
  by_cases h1 : (iterate data k epsSq
      (initState data.length (data.headD []).length k mu0)).converged
  · have hfin : kMeans data k epsSq mu0 (f + 2) =
        some ((iterate data k epsSq
            (initState data.length (data.headD []).length k mu0)).mu,
          (iterate data k epsSq
            (initState data.length (data.headD []).length k mu0)).assign, 1) := by
      rw [e0]; exact kmLoop_of_conv _ _ _ _ _ _ h1
    exact ⟨_, _, 1, hfin, by omega⟩
  · have h1' : (iterate data k epsSq
        (initState data.length (data.headD []).length k mu0)).converged = false :=
      Bool.eq_false_iff.mpr h1
    have e1 : kmLoop data k epsSq (f + 1)
        (iterate data k epsSq (initState data.length (data.headD []).length k mu0)) 1 =
        kmLoop data k epsSq f
          (iterate data k epsSq (iterate data k epsSq
            (initState data.length (data.headD []).length k mu0))) 2 :=
      kmLoop_succ_of_not _ _ _ _ _ _ h1'
    have h2 : (iterate data k epsSq (iterate data k epsSq
        (initState data.length (data.headD []).length k mu0))).converged = true :=
      iterate_conv_of_aliased _ _ _ _ (iterate_prevMu _ _ _ _) hk heps
    have hfin : kMeans data k epsSq mu0 (f + 2) =
        some ((iterate data k epsSq (iterate data k epsSq
            (initState data.length (data.headD []).length k mu0))).mu,
          (iterate data k epsSq (iterate data k epsSq
            (initState data.length (data.headD []).length k mu0))).assign, 2) := by
      rw [e0, e1]; exact kmLoop_of_conv _ _ _ _ _ _ h2
    exact ⟨_, _, 2, hfin, by omega⟩

/-- Float summation of injected rationals is exact rational summation. -/
lemma foldl_add_map_val (l : List ℚ) :
    ∀ a : ℚ, (l.map NF.val).foldl NF.add (NF.val a) = NF.val (a + l.sum) := by
  induction l with
  | nil => intro a; simp [NF.add]
  | cons x t ih =>
    intro a
    have hz : NF.add (NF.val a) (NF.val x) = NF.val (a + x) := rfl
    simp only [List.map_cons, List.foldl_cons, hz, ih, List.sum_cons, add_assoc]

/-- On a NaN-free centroid row the squared distance is the exact rational
squared distance. -/
lemma sqDistNF_real (p r : List ℚ) : sqDistNF p (toNFrow r) = NF.val (sqDistQ p r) := by
  have hmap : (List.zip p (toNFrow r)).map (fun xy => NF.sq (NF.sub (NF.val xy.1) xy.2)) =
      ((List.zip p r).map (fun xy => (xy.1 - xy.2) * (xy.1 - xy.2))).map NF.val := by
    rw [toNFrow, List.zip_map_right, List.map_map, List.map_map]
    refine List.map_congr_left ?_
    intro xy _
    obtain ⟨x, y⟩ := xy
    rfl
  have h1 : sqDistNF p (toNFrow r) =
      sumNF (((List.zip p r).map (fun xy => (xy.1 - xy.2) * (xy.1 - xy.2))).map NF.val) := by
    unfold sqDistNF
    rw [hmap]
  rw [h1]
  unfold sumNF sqDistQ
  rw [foldl_add_map_val, zero_add]

/-- On NaN-free rows the convergence-check quantity is the exact rational
squared difference. -/
lemma rowSqDiff_real (a b : List ℚ) :
    rowSqDiff (toNFrow a) (toNFrow b) = NF.val (sqDiffQ a b) := by
  have hmap : (List.zip (toNFrow a) (toNFrow b)).map (fun xy => NF.sq (NF.sub xy.1 xy.2)) =
      ((List.zip a b).map (fun xy => (xy.1 - xy.2) * (xy.1 - xy.2))).map NF.val := by
    rw [toNFrow, toNFrow, List.zip_map, List.map_map, List.map_map]
    refine List.map_congr_left ?_
    intro xy _
    obtain ⟨x, y⟩ := xy
    rfl
  have h1 : rowSqDiff (toNFrow a) (toNFrow b) =
      sumNF (((List.zip a b).map (fun xy => (xy.1 - xy.2) * (xy.1 - xy.2))).map NF.val) := by
    unfold rowSqDiff
    rw [hmap]
  rw [h1]
  unfold sumNF sqDiffQ
  rw [foldl_add_map_val, zero_add]

/-- Squared difference against the zero vector is the squared norm. -/
lemma sqDiffQ_replicate_zero : ∀ v : List ℚ, sqDiffQ v (List.replicate v.length 0) = sqNormQ v := by
  intro v
  induction v with
  | nil => rfl
  | cons x t ih =>
    have h1 : sqDiffQ (x :: t) (List.replicate (x :: t).length 0) =
        (x - 0) * (x - 0) + sqDiffQ t (List.replicate t.length 0) := by
      simp [sqDiffQ, List.replicate_succ]
    rw [h1, ih]
    simp [sqNormQ]

/-- The convergence-check quantity of a real row against the initial
`np.zeros` row is its exact squared norm. -/
lemma rowSqDiff_toNFrow_zeros (v : List ℚ) (d : ℕ) (hv : v.length = d) :
    rowSqDiff (toNFrow v) (List.replicate d (NF.val 0)) = NF.val (sqNormQ v) := by
  have h1 : List.replicate d (NF.val 0) = toNFrow (List.replicate d 0) := by
    simp [toNFrow, List.map_replicate]
  rw [h1, rowSqDiff_real, ← hv, sqDiffQ_replicate_zero]

/-- With a single real centroid every point is assigned to cluster 0. -/
lemma assignPoint_single (p : Pt) (r : List ℚ) : assignPoint p [toNFrow r] = 0 := by
  unfold assignPoint
  have h : bestLoop p [toNFrow r] 0 (0, NF.pinf) =
      (if NF.lt (sqDistNF p (toNFrow r)) NF.pinf then (0, sqDistNF p (toNFrow r))
       else (0, NF.pinf)) := rfl
  rw [h, sqDistNF_real]
  cases hq : NF.lt (NF.val (sqDistQ p r)) NF.pinf <;> simp [hq]

/-- The assignment step when every point goes to cluster 0: cluster 0's
size grows by `n`, its sum accumulates all the points, the other
accumulators are untouched, and the assignment vector is all zeros. -/
lemma assignFold_const (mu : List (List NF)) (hmu : ∀ p : Pt, assignPoint p mu = 0) :
    ∀ (data : List Pt) (sizes : ℕ → ℕ) (sums : ℕ → Pt) (acc : List ℕ),
      assignFold mu data sizes sums acc =
        (fun j => if j = 0 then sizes j + data.length else sizes j,
         fun j => if j = 0 then data.foldl vecAdd (sums 0) else sums j,
         acc ++ List.replicate data.length 0) := by
  intro data
  induction data with
  | nil =>
    intro sizes sums acc
    refine Prod.ext ?_ (Prod.ext ?_ ?_)
    · funext j; by_cases hj : j = 0 <;> simp [assignFold, hj]
    · funext j; by_cases hj : j = 0 <;> simp [assignFold, hj]
    · simp [assignFold]
  | cons q rest ih =>
    intro sizes sums acc
    have hstep : assignFold mu (q :: rest) sizes sums acc =
        assignFold mu rest
          (fun j => if j = assignPoint q mu then sizes j + 1 else sizes j)
          (fun j => if j = assignPoint q mu then vecAdd (sums j) q else sums j)
          (acc ++ [assignPoint q mu]) := rfl
    rw [hstep, hmu q, ih]
    refine Prod.ext ?_ (Prod.ext ?_ ?_)
    · funext j
      by_cases hj : j = 0 <;> simp [hj]
      omega
    · funext j
      by_cases hj : j = 0 <;> simp [hj, List.foldl_cons]
    · simp [List.append_assoc, List.replicate_succ]

/-- Elementwise addition keeps the common length. -/
lemma vecAdd_length (a b : List ℚ) : (vecAdd a b).length = min a.length b.length := by
  simp [vecAdd]

/-- Accumulating equal-length rows keeps the length. -/
lemma foldl_vecAdd_length (d : ℕ) :
    ∀ data : List Pt, (∀ r ∈ data, r.length = d) →
      ∀ init : Pt, init.length = d → (data.foldl vecAdd init).length = d := by
  intro data
  induction data with
  | nil => intro _ init h; simpa using h
  | cons q rest ih =>
    intro hall init hinit
    have hq : q.length = d := hall q (List.mem_cons_self _ _)
    have hlen : (vecAdd init q).length = d := by
      rw [vecAdd_length, hinit, hq, Nat.min_self]
    simpa [List.foldl_cons] using
      ih (fun r hr => hall r (List.mem_cons_of_mem _ hr)) _ hlen

/-- Coordinate `j` of the accumulated sum is the start value plus the
column sum. -/
lemma foldl_vecAdd_getD (d j : ℕ) (hj : j < d) :
    ∀ data : List Pt, (∀ r ∈ data, r.length = d) →
      ∀ init : Pt, init.length = d →
        (data.foldl vecAdd init).getD j 0 = init.getD j 0 + colSum data j := by
  intro data
  induction data with
  | nil => intro _ init _; simp [colSum]
  | cons q rest ih =>
    intro hall init hinit
    have hq : q.length = d := hall q (List.mem_cons_self _ _)
    have hlen : (vecAdd init q).length = d := by
      rw [vecAdd_length, hinit, hq, Nat.min_self]
    have hji : j < init.length := by rw [hinit]; exact hj
    have hjq : j < q.length := by rw [hq]; exact hj
    have hjv : j < (vecAdd init q).length := by rw [hlen]; exact hj
    have hmid : (vecAdd init q).getD j 0 = init.getD j 0 + q.getD j 0 := by
      rw [List.getD_eq_getElem _ _ hjv, List.getD_eq_getElem _ _ hji,
        List.getD_eq_getElem _ _ hjq]
      simp [vecAdd, List.getElem_zipWith]
    calc ((q :: rest).foldl vecAdd init).getD j 0
        = (rest.foldl vecAdd (vecAdd init q)).getD j 0 := rfl
      _ = (vecAdd init q).getD j 0 + colSum rest j :=
          ih (fun r hr => hall r (List.mem_cons_of_mem _ hr)) _ hlen
      _ = init.getD j 0 + q.getD j 0 + colSum rest j := by rw [hmid]
      _ = init.getD j 0 + colSum (q :: rest) j := by simp [colSum, add_assoc]

/-- First update with `k = 1`: `sum of all points / n` is the mean row. -/
lemma mapdiv_one (data : List Pt) (d : ℕ) (hne : data ≠ []) (hd : ∀ r ∈ data, r.length = d) :
    (data.foldl vecAdd (List.replicate d 0)).map (fun x => NF.divQNat x data.length) =
      toNFrow (meanVec d data) := by
  have hn : data.length ≠ 0 := fun h => hne (List.length_eq_zero.mp h)
  have hS : (data.foldl vecAdd (List.replicate d 0)).length = d :=
    foldl_vecAdd_length d data hd _ (by simp)
  apply List.ext_getElem
  · simp [hS, toNFrow, meanVec]
  · intro i h1 h2
    have hid : i < d := by
      rw [List.length_map, hS] at h1
      exact h1
    have hiS : i < (data.foldl vecAdd (List.replicate d 0)).length := by
      rw [hS]; exact hid
    have hgd := foldl_vecAdd_getD d i hid data hd (List.replicate d 0) (by simp)
    have hrep : (List.replicate d (0 : ℚ)).getD i 0 = 0 := by
      rw [List.getD_eq_getElem _ _ (by simpa using hid), List.getElem_replicate]
    rw [hrep, zero_add] at hgd
    have hSi : (data.foldl vecAdd (List.replicate d 0))[i] = colSum data i :=
      (List.getD_eq_getElem _ 0 hiS).symm.trans hgd
    simp only [List.getElem_map, hSi, toNFrow, meanVec, List.getElem_range]
    simp [NF.divQNat, hn]

/-- Second update with `k = 1`: the accumulators have doubled (no reset),
but `2 * sum / 2n` is still the mean row. -/
lemma mapdiv_two (data : List Pt) (d : ℕ) (hne : data ≠ []) (hd : ∀ r ∈ data, r.length = d) :
    (data.foldl vecAdd (data.foldl vecAdd (List.replicate d 0))).map
      (fun x => NF.divQNat x (data.length + data.length)) = toNFrow (meanVec d data) := by
  have hn : data.length ≠ 0 := fun h => hne (List.length_eq_zero.mp h)
  have hnn : data.length + data.length ≠ 0 := by omega
  have hS : (data.foldl vecAdd (List.replicate d 0)).length = d :=
    foldl_vecAdd_length d data hd _ (by simp)
  have hS2 : (data.foldl vecAdd (data.foldl vecAdd (List.replicate d 0))).length = d :=
    foldl_vecAdd_length d data hd _ hS
  apply List.ext_getElem
  · simp [hS2, toNFrow, meanVec]
  · intro i h1 h2
    have hid : i < d := by
      rw [List.length_map, hS2] at h1
      exact h1
    have hiS : i < (data.foldl vecAdd (data.foldl vecAdd (List.replicate d 0))).length := by
      rw [hS2]; exact hid
    have hrep : (List.replicate d (0 : ℚ)).getD i 0 = 0 := by
      rw [List.getD_eq_getElem _ _ (by simpa using hid), List.getElem_replicate]
    have hg1 := foldl_vecAdd_getD d i hid data hd (List.replicate d 0) (by simp)
    rw [hrep, zero_add] at hg1
    have hg2 := foldl_vecAdd_getD d i hid data hd _ hS
    rw [hg1] at hg2
    have hSi : (data.foldl vecAdd (data.foldl vecAdd (List.replicate d 0)))[i] =
        colSum data i + colSum data i :=
      (List.getD_eq_getElem _ 0 hiS).symm.trans hg2
    simp only [List.getElem_map, hSi, toNFrow, meanVec, List.getElem_range]
    have harith : (colSum data i + colSum data i) / ((data.length : ℚ) + (data.length : ℚ)) =
        colSum data i / (data.length : ℚ) := by
      rw [← two_mul, ← two_mul ((data.length : ℚ)), mul_div_mul_left _ _ (two_ne_zero)]
    simp [NF.divQNat, hnn, harith]

/-- Cluster 0's size after an all-to-cluster-0 assignment step. -/
lemma iterate_k1_sizes (data : List Pt) (epsSq : ℚ) (s : KState) (r : List ℚ)
    (hmu : s.mu = [toNFrow r]) :
    (iterate data 1 epsSq s).sizes 0 = s.sizes 0 + data.length := by
  have h0 : (iterate data 1 epsSq s).sizes = (assignFold s.mu data s.sizes s.sums []).1 := rfl
  rw [h0, hmu, assignFold_const _ (fun p => assignPoint_single p r)]
  simp

/-- Cluster 0's coordinate sum after an all-to-cluster-0 assignment step. -/
lemma iterate_k1_sums (data : List Pt) (epsSq : ℚ) (s : KState) (r : List ℚ)
    (hmu : s.mu = [toNFrow r]) :
    (iterate data 1 epsSq s).sums 0 = data.foldl vecAdd (s.sums 0) := by
  have h0 : (iterate data 1 epsSq s).sums = (assignFold s.mu data s.sizes s.sums []).2.1 := rfl
  rw [h0, hmu, assignFold_const _ (fun p => assignPoint_single p r)]
  simp

/-- The updated centroid matrix of a `k = 1` iteration. -/
lemma iterate_k1_mu (data : List Pt) (epsSq : ℚ) (s : KState) (r : List ℚ)
    (hmu : s.mu = [toNFrow r]) :
    (iterate data 1 epsSq s).mu =
      [(data.foldl vecAdd (s.sums 0)).map
        (fun x => NF.divQNat x (s.sizes 0 + data.length))] := by
  have h0 : (iterate data 1 epsSq s).mu =
      updateStep 1 (assignFold s.mu data s.sizes s.sums []).2.1
        (assignFold s.mu data s.sizes s.sums []).1 := rfl
  rw [h0, hmu, assignFold_const _ (fun p => assignPoint_single p r)]
  simp [updateStep, List.range_succ]

/-- The assignment vector of a `k = 1` iteration is all zeros. -/
lemma iterate_k1_assign (data : List Pt) (epsSq : ℚ) (s : KState) (r : List ℚ)
    (hmu : s.mu = [toNFrow r]) :
    (iterate data 1 epsSq s).assign = List.replicate data.length 0 := by
  have h0 : (iterate data 1 epsSq s).assign = (assignFold s.mu data s.sizes s.sums []).2.2 := rfl
  rw [h0, hmu, assignFold_const _ (fun p => assignPoint_single p r)]
  simp

/-- The convergence flag of a `k = 1` iteration, in terms of the updated
centroid matrix. -/
lemma iterate_k1_conv (data : List Pt) (epsSq : ℚ) (s : KState) (r : List ℚ)
    (hmu : s.mu = [toNFrow r]) :
    (iterate data 1 epsSq s).converged =
      convCheck epsSq
        [(data.foldl vecAdd (s.sums 0)).map
          (fun x => NF.divQNat x (s.sizes 0 + data.length))]
        (s.prevMu.getD
          [(data.foldl vecAdd (s.sums 0)).map
            (fun x => NF.divQNat x (s.sizes 0 + data.length))])
        1 s.converged := by
  have h0 : (iterate data 1 epsSq s).converged =
      convCheck epsSq
        (updateStep 1 (assignFold s.mu data s.sizes s.sums []).2.1
          (assignFold s.mu data s.sizes s.sums []).1)
        (s.prevMu.getD
          (updateStep 1 (assignFold s.mu data s.sizes s.sums []).2.1
            (assignFold s.mu data s.sizes s.sums []).1))
        1 s.converged := rfl
  rw [h0, hmu, assignFold_const _ (fun p => assignPoint_single p r)]
  simp [updateStep, List.range_succ]

/-- C2: the claim says `k_means` with `K = 1` converges in exactly ONE
iteration.  Counterexample: the one-point dataset `{1}` (so `N = 1 ≥ K`):
the run takes 2 iterations, because the first convergence check compares
the centroid (the mean, `1`) against the zero-initialized `prev_mu` and
`norm(1 - 0) > eps`; only the second iteration (whose check compares `mu`
with its own alias) stops the loop.  The returned centroid does equal the
mean. -/
theorem C2_counterexample :
    kMeans [[1]] 1 (1 / 100000000) [[NF.val 1]] 5 = some ([[NF.val 1]], [0], 2) := by
  norm_num [kMeans, kmLoop, initState, iterate, assignFold, assignPoint, bestLoop,
    sqDistNF, sumNF, rowSqDiff, updateStep, convCheck, vecAdd, NF.lt, NF.gtQ,
    NF.add, NF.sub, NF.sq, NF.divQNat, List.range_succ]

/-- C2 (amended): for every nonempty dataset of `D`-vectors and every real
initial centroid, `k_means` with `K = 1` returns the exact mean of all `N`
points as the single centroid, and converges in exactly TWO iterations
when the squared norm of that mean exceeds `epsSq` (the first check
compares the mean against the zero-initialized `prev_mu`), and in exactly
one iteration otherwise. -/
theorem C2_amended (data : List Pt) (d : ℕ) (epsSq : ℚ) (r0 : List ℚ) (fuel : ℕ)
    (hne : data ≠ []) (hd : ∀ r ∈ data, r.length = d)
    (heps : 0 ≤ epsSq) (hfuel : 2 ≤ fuel) :
    kMeans data 1 epsSq [toNFrow r0] fuel =
      some ([toNFrow (meanVec d data)], List.replicate data.length 0,
        if epsSq < sqNormQ (meanVec d data) then 2 else 1) := by
  have hd0 : (data.headD []).length = d := by
    cases data with
    | nil => exact absurd rfl hne
    | cons q t => exact hd q (List.mem_cons_self _ _)
  have hkm : kMeans data 1 epsSq [toNFrow r0] fuel =
      kmLoop data 1 epsSq fuel (initState data.length d 1 [toNFrow r0]) 0 := by
    unfold kMeans
    rw [hd0]
  obtain ⟨f, rfl⟩ : ∃ f, fuel = f + 2 := ⟨fuel - 2, by omega⟩
  have hs1mu : (iterate data 1 epsSq (initState data.length d 1 [toNFrow r0])).mu =
      [toNFrow (meanVec d data)] := by
    rw [iterate_k1_mu data epsSq _ r0 rfl]
    simp only [initState, Nat.zero_add]
    rw [mapdiv_one data d hne hd]
  have hs1sums0 : (iterate data 1 epsSq (initState data.length d 1 [toNFrow r0])).sums 0 =
      data.foldl vecAdd (List.replicate d 0) := by
    rw [iterate_k1_sums data epsSq _ r0 rfl]
    rfl
  have hs1sizes0 : (iterate data 1 epsSq (initState data.length d 1 [toNFrow r0])).sizes 0 =
      data.length := by
    rw [iterate_k1_sizes data epsSq _ r0 rfl]
    simp [initState]
  have hs1assign : (iterate data 1 epsSq (initState data.length d 1 [toNFrow r0])).assign =
      List.replicate data.length 0 :=
    iterate_k1_assign data epsSq _ r0 rfl
  have hs1conv : (iterate data 1 epsSq (initState data.length d 1 [toNFrow r0])).converged =
      !(decide (epsSq < sqNormQ (meanVec d data))) := by
    rw [iterate_k1_conv data epsSq _ r0 rfl]
    simp only [initState, Nat.zero_add, Option.getD_some]
    rw [mapdiv_one data d hne hd]
    rw [convCheck_eq_last _ _ _ _ _ (le_refl 1)]
    simp only [Nat.sub_self, List.getD_cons_zero, List.replicate_one]
    rw [rowSqDiff_toNFrow_zeros _ d (by simp [meanVec])]
    rfl
  have hs2mu : (iterate data 1 epsSq (iterate data 1 epsSq
      (initState data.length d 1 [toNFrow r0]))).mu = [toNFrow (meanVec d data)] := by
    rw [iterate_k1_mu data epsSq _ (meanVec d data) hs1mu, hs1sums0, hs1sizes0,
      mapdiv_two data d hne hd]
  have hs2assign : (iterate data 1 epsSq (iterate data 1 epsSq
      (initState data.length d 1 [toNFrow r0]))).assign = List.replicate data.length 0 :=
    iterate_k1_assign data epsSq _ (meanVec d data) hs1mu
  have hs2conv : (iterate data 1 epsSq (iterate data 1 epsSq
      (initState data.length d 1 [toNFrow r0]))).converged = true :=
    iterate_conv_of_aliased _ _ _ _ (iterate_prevMu _ _ _ _) (le_refl 1) heps
  have e0 : kmLoop data 1 epsSq (f + 2) (initState data.length d 1 [toNFrow r0]) 0 =
      kmLoop data 1 epsSq (f + 1)
        (iterate data 1 epsSq (initState data.length d 1 [toNFrow r0])) 1 :=
    kmLoop_succ_of_not _ _ _ _ _ _ rfl
  rw [hkm, e0]
  by_cases hc : epsSq < sqNormQ (meanVec d data)
  · have hcv : (iterate data 1 epsSq (initState data.length d 1 [toNFrow r0])).converged =
        false := by
      rw [hs1conv]
      simp [hc]
    have e1 : kmLoop data 1 epsSq (f + 1)
        (iterate data 1 epsSq (initState data.length d 1 [toNFrow r0])) 1 =
        kmLoop data 1 epsSq f
          (iterate data 1 epsSq
            (iterate data 1 epsSq (initState data.length d 1 [toNFrow r0]))) 2 :=
      kmLoop_succ_of_not _ _ _ _ _ _ hcv
    rw [e1, kmLoop_of_conv _ _ _ _ _ _ hs2conv, hs2mu, hs2assign, if_pos hc]
  · have hcv : (iterate data 1 epsSq (initState data.length d 1 [toNFrow r0])).converged =
        true := by
      rw [hs1conv]
      simp [hc]
    rw [kmLoop_of_conv _ _ _ _ _ _ hcv, hs1mu, hs1assign, if_neg hc]

/-- C2 witness: the amended theorem applied at a concrete input. -/
theorem C2_witness :
    (([[1], [3]] : List Pt) ≠ [] ∧ (∀ r ∈ ([[1], [3]] : List Pt), r.length = 1) ∧
      (0 : ℚ) ≤ 1 ∧ 2 ≤ 2) ∧
    kMeans [[1], [3]] 1 1 [toNFrow [0]] 2 =
      some ([toNFrow (meanVec 1 [[1], [3]])],
        List.replicate ([[1], [3]] : List Pt).length 0,
        if (1 : ℚ) < sqNormQ (meanVec 1 [[1], [3]]) then 2 else 1) :=
  ⟨⟨by simp, by simp, by norm_num, le_refl 2⟩,
   C2_amended [[1], [3]] 1 1 [0] 2 (by simp) (by simp) (by norm_num) (le_refl 2)⟩

/-- C3: the claim says each new centroid is the mean of exactly the points
assigned to its cluster during that iteration.  The accumulators are never
reset, so this fails.  Failing input: 1D data `{0, 3, 10}`, `k = 2`,
initial centroids `(0, 4)`.  Iteration 1 assigns `{0} | {3, 10}`;
iteration 2 assigns `{0, 3} | {10}`, so cluster 1's centroid should be
`10`; the code returns `23/3` (`= (3 + 10 + 10) / (2 + 1)`, the
accumulated sums and counts of both iterations). -/
theorem C3_eval :
    kMeans [[0], [3], [10]] 2 (1 / 100000000) [[NF.val 0], [NF.val 4]] 9 =
      some ([[NF.val 1], [NF.val (23 / 3)]], [0, 0, 1], 2) ∧
    (23 / 3 : ℚ) ≠ 10 := by
  constructor
  · norm_num [kMeans, kmLoop, initState, iterate, assignFold, assignPoint, bestLoop,
      sqDistNF, sumNF, rowSqDiff, updateStep, convCheck, vecAdd, NF.lt, NF.gtQ,
      NF.add, NF.sub, NF.sq, NF.divQNat, List.range_succ]
  · norm_num

/-- The scan `for u in range(k)` keeps the first strict minimum: from a
real accumulator `(c, b)` it either keeps the accumulator (when nothing
beats `b`) or returns the first index achieving the (strictly smaller)
minimum of the remaining rows. -/
lemma bestLoop_val_spec (p : Pt) :
    ∀ (l : List (List ℚ)) (u0 c : ℕ) (b : ℚ),
      (bestLoop p (toNFmat l) u0 (c, NF.val b) = (c, NF.val b) ∧
        ∀ i, i < l.length → b ≤ sqDistQ p (l.getD i [])) ∨
      (∃ j, j < l.length ∧
        bestLoop p (toNFmat l) u0 (c, NF.val b) =
          (u0 + j, NF.val (sqDistQ p (l.getD j []))) ∧
        sqDistQ p (l.getD j []) < b ∧
        (∀ i, i < l.length → sqDistQ p (l.getD j []) ≤ sqDistQ p (l.getD i [])) ∧
        (∀ i, i < j → sqDistQ p (l.getD j []) < sqDistQ p (l.getD i []))) := by
  intro l
  induction l with
  | nil =>
    intro u0 c b
    left
    exact ⟨rfl, fun i hi => absurd hi (Nat.not_lt_zero i)⟩
  | cons m rest ih =>
    intro u0 c b
    have hstep : bestLoop p (toNFmat (m :: rest)) u0 (c, NF.val b) =
        bestLoop p (toNFmat rest) (u0 + 1)
          (if NF.lt (sqDistNF p (toNFrow m)) (NF.val b) then (u0, sqDistNF p (toNFrow m))
           else (c, NF.val b)) := rfl
    rw [sqDistNF_real] at hstep
    by_cases hlt : sqDistQ p m < b
    · have hif : (if NF.lt (NF.val (sqDistQ p m)) (NF.val b) then (u0, NF.val (sqDistQ p m))
          else (c, NF.val b)) = (u0, NF.val (sqDistQ p m)) := by
        simp [NF.lt, hlt]
      rw [hif] at hstep
      rcases ih (u0 + 1) u0 (sqDistQ p m) with ⟨heq, hmin⟩ | ⟨j, hj, heq, hless, hmin, hstrict⟩
      · right
        refine ⟨0, Nat.succ_pos _, ?_, ?_, ?_, ?_⟩
        · rw [hstep, heq]
          simp
        · simpa using hlt
        · intro i hi
          cases i with
          | zero => simp
          | succ i' => simpa using hmin i' (Nat.lt_of_succ_lt_succ hi)
        · intro i hi
          exact absurd hi (Nat.not_lt_zero i)
      · right
        refine ⟨j + 1, Nat.succ_lt_succ hj, ?_, ?_, ?_, ?_⟩
        · rw [hstep, heq]
          have harr : u0 + 1 + j = u0 + (j + 1) := by omega
          simp [harr]
        · simpa using lt_trans hless hlt
        · intro i hi
          cases i with
          | zero => simpa using le_of_lt hless
          | succ i' => simpa using hmin i' (Nat.lt_of_succ_lt_succ hi)
        · intro i hi
          cases i with
          | zero => simpa using hless
          | succ i' => simpa using hstrict i' (Nat.lt_of_succ_lt_succ hi)
    · have hif : (if NF.lt (NF.val (sqDistQ p m)) (NF.val b) then (u0, NF.val (sqDistQ p m))
          else (c, NF.val b)) = (c, NF.val b) := by
        simp [NF.lt, hlt]
      rw [hif] at hstep
      have hb : b ≤ sqDistQ p m := le_of_not_lt hlt
      rcases ih (u0 + 1) c b with ⟨heq, hmin⟩ | ⟨j, hj, heq, hless, hmin, hstrict⟩
      · left
        refine ⟨by rw [hstep, heq], ?_⟩
        intro i hi
        cases i with
        | zero => simpa using hb
        | succ i' => simpa using hmin i' (Nat.lt_of_succ_lt_succ hi)
      · right
        refine ⟨j + 1, Nat.succ_lt_succ hj, ?_, by simpa using hless, ?_, ?_⟩
        · rw [hstep, heq]
          have harr : u0 + 1 + j = u0 + (j + 1) := by omega
          simp [harr]
        · intro i hi
          cases i with
          | zero => simpa using le_trans (le_of_lt hless) hb
          | succ i' => simpa using hmin i' (Nat.lt_of_succ_lt_succ hi)
        · intro i hi
          cases i with
          | zero => simpa using lt_of_lt_of_le hless hb
          | succ i' => simpa using hstrict i' (Nat.lt_of_succ_lt_succ hi)

/-- C7: on a real (NaN-free) centroid matrix, the assignment step picks an
in-range cluster whose (squared, hence Euclidean) distance is minimal over
all clusters, and every strictly lower-indexed cluster has strictly larger
distance — i.e. ties go to the lowest index, since the strict `<` against
`best_euc_dist` keeps the first minimum while scanning `0 .. k-1`. -/
theorem C7_assign_least_argmin (p : Pt) (muQ : List (List ℚ)) (h : muQ ≠ []) :
    assignPoint p (toNFmat muQ) < muQ.length ∧
    (∀ u, u < muQ.length →
      sqDistQ p (muQ.getD (assignPoint p (toNFmat muQ)) []) ≤ sqDistQ p (muQ.getD u [])) ∧
    (∀ u, u < assignPoint p (toNFmat muQ) →
      sqDistQ p (muQ.getD (assignPoint p (toNFmat muQ)) []) < sqDistQ p (muQ.getD u [])) := by
  obtain ⟨m, rest, rfl⟩ : ∃ m rest, muQ = m :: rest := by
    cases muQ with
    | nil => exact absurd rfl h
    | cons m r => exact ⟨m, r, rfl⟩
  have hstep : assignPoint p (toNFmat (m :: rest)) =
      (bestLoop p (toNFmat rest) 1 (0, NF.val (sqDistQ p m))).1 := by
    unfold assignPoint
    have h1 : bestLoop p (toNFmat (m :: rest)) 0 (0, NF.pinf) =
        bestLoop p (toNFmat rest) 1
          (if NF.lt (sqDistNF p (toNFrow m)) NF.pinf then (0, sqDistNF p (toNFrow m))
           else (0, NF.pinf)) := rfl
    rw [h1, sqDistNF_real]
    simp [NF.lt]
  rcases bestLoop_val_spec p rest 1 0 (sqDistQ p m) with
    ⟨heq, hmin⟩ | ⟨j, hj, heq, hless, hmin, hstrict⟩
  · have ha : assignPoint p (toNFmat (m :: rest)) = 0 := by rw [hstep, heq]
    refine ⟨?_, ?_, ?_⟩
    · rw [ha]; exact Nat.succ_pos _
    · intro u hu
      rw [ha]
      cases u with
      | zero => simp
      | succ u' => simpa using hmin u' (Nat.lt_of_succ_lt_succ hu)
    · intro u hu
      rw [ha] at hu
      exact absurd hu (Nat.not_lt_zero u)
  · have ha : assignPoint p (toNFmat (m :: rest)) = j + 1 := by
      rw [hstep, heq]
      omega
    refine ⟨?_, ?_, ?_⟩
    · rw [ha]; exact Nat.succ_lt_succ hj
    · intro u hu
      rw [ha]
      cases u with
      | zero => simpa using le_of_lt hless
      | succ u' => simpa using hmin u' (Nat.lt_of_succ_lt_succ hu)
    · intro u hu
      rw [ha] at hu
      rw [ha]
      cases u with
      | zero => simpa using hless
      | succ u' => simpa using hstrict u' (Nat.lt_of_succ_lt_succ hu)

/-- C7 witness: the theorem applied at a concrete input with a tie — two
identical centroids; the point is assigned to index 0. -/
theorem C7_witness :
    (([[1], [1]] : List (List ℚ)) ≠ []) ∧
    (assignPoint [0] (toNFmat [[1], [1]]) < ([[1], [1]] : List (List ℚ)).length ∧
    (∀ u, u < ([[1], [1]] : List (List ℚ)).length →
      sqDistQ [0] (([[1], [1]] : List (List ℚ)).getD (assignPoint [0] (toNFmat [[1], [1]])) []) ≤
        sqDistQ [0] (([[1], [1]] : List (List ℚ)).getD u [])) ∧
    (∀ u, u < assignPoint [0] (toNFmat [[1], [1]]) →
      sqDistQ [0] (([[1], [1]] : List (List ℚ)).getD (assignPoint [0] (toNFmat [[1], [1]])) []) <
        sqDistQ [0] (([[1], [1]] : List (List ℚ)).getD u []))) :=
  ⟨by simp, C7_assign_least_argmin [0] [[1], [1]] (by simp)⟩

/-- C10 witness: the theorem applied at a concrete input. -/
theorem C10_witness :
    ((1 ≤ 1) ∧ (0 ≤ (1 : ℚ)) ∧ (2 ≤ 2)) ∧
    ∃ mu assign iters,
      kMeans [[0]] 1 1 [[NF.val 0]] 2 = some (mu, assign, iters) ∧ iters ≤ 2 :=
  ⟨⟨le_refl 1, by norm_num, le_refl 2⟩,
   C10_terminates_within_two [[0]] 1 1 [[NF.val 0]] 2 (le_refl 1) (by norm_num) (le_refl 2)⟩

end Project3
